import Mathlib

/-
  Shallow embedding of the analytical core of `src/app.py` (a DCA vs
  lump-sum investment simulator).

  Conventions of the embedding:
  * Python `datetime` values (always at midnight here) are modelled by the
    `Date` structure below; Python's `datetime` comparison is lexicographic
    on (year, month, day), modelled by `dlt` / `dle`.
  * The script stores trading days as a list of `'%Y-%m-%d'` strings and
    tests membership with `in`; since `strftime('%Y-%m-%d')` is injective on
    dates, the list of strings is modelled by a `List Date`.
  * Money and prices are modelled by `ℚ` (the script uses floats; no claim
    in scope depends on rounding), except CAGR, whose real exponentiation is
    modelled in `ℝ`.
  * The two `while` loops of `generate_schedule` are modelled with explicit
    fuel; the outer result is `Option`-valued, `none` meaning the fuel was
    exhausted before the loop finished.  A raised Python exception is a
    distinguished constructor (`GenOut.invalidFrequency`), never `none`.
-/

namespace App

/-- A calendar date (year, month, day): the model of the Python `datetime`
    values handled by the script (all at midnight). -/
structure Date where
  y : Int
  m : Int
  d : Int
deriving DecidableEq

/-- Python `datetime` strict comparison `a < b`: lexicographic on
    (year, month, day). -/
def dlt (a b : Date) : Prop :=
  a.y < b.y ∨ (a.y = b.y ∧ (a.m < b.m ∨ (a.m = b.m ∧ a.d < b.d)))

instance (a b : Date) : Decidable (dlt a b) := by
  unfold dlt; exact inferInstance

/-- Python `datetime` comparison `a <= b`: lexicographic on
    (year, month, day). -/
def dle (a b : Date) : Prop :=
  a.y < b.y ∨ (a.y = b.y ∧ (a.m < b.m ∨ (a.m = b.m ∧ a.d ≤ b.d)))

instance (a b : Date) : Decidable (dle a b) := by
  unfold dle; exact inferInstance

/-- Gregorian leap-year rule, as implemented by Python's `datetime`. -/
def isLeap (y : Int) : Bool :=
  y % 4 == 0 && (y % 100 != 0 || y % 400 == 0)

/-- Number of days in month `m` of year `y` (proleptic Gregorian). -/
def daysInMonth (y m : Int) : Int :=
  if m = 2 then (if isLeap y then 29 else 28)
  else if m = 4 ∨ m = 6 ∨ m = 9 ∨ m = 11 then 30
  else 31

/-- Valid dates: what Python `datetime` can hold (year ≥ 1; the model puts
    no upper bound on the year). -/
def Valid (a : Date) : Prop :=
  1 ≤ a.y ∧ 1 ≤ a.m ∧ a.m ≤ 12 ∧ 1 ≤ a.d ∧ a.d ≤ daysInMonth a.y a.m

instance (a : Date) : Decidable (Valid a) := by
  unfold Valid; exact inferInstance

/-- `current + timedelta(days=1)` on a valid date. -/
def nextDay (a : Date) : Date :=
  if a.d < daysInMonth a.y a.m then ⟨a.y, a.m, a.d + 1⟩
  else if a.m < 12 then ⟨a.y, a.m + 1, 1⟩
  else ⟨a.y + 1, 1, 1⟩

/-- `current + timedelta(days=n)`. -/
def addDays (a : Date) : Nat → Date
  | 0 => a
  | n + 1 => addDays (nextDay a) n

/-- `current.replace(day=1) + pd.DateOffset(months=n)` — the cursor is first
    moved to day 1 of its month, then `n` calendar months are added
    (`src/app.py` lines 94, 97, 100). -/
def addMonthsFirst (c : Date) (n : Int) : Date :=
  let t := c.m - 1 + n
  ⟨c.y + t / 12, t % 12 + 1, 1⟩

/-- `current.replace(day=start.day if start.day <= 28 else 28)`
    (`src/app.py` lines 95, 98, 101, 104); `sd` is `start.day`. -/
def clampDay (sd : Int) (c : Date) : Date :=
  ⟨c.y, c.m, if sd ≤ 28 then sd else 28⟩

/-- One period-advance step of `generate_schedule` (`src/app.py`
    lines 89–106), applied to the cursor `c` as the loop leaves it (i.e. to
    the value of the Python variable `current` at line 89); `sd` is
    `start.day`.  `none` models `raise ValueError("Invalid frequency.")`. -/
def advance (freq : String) (sd : Int) (c : Date) : Option Date :=
  if freq = "daily" then some (nextDay c)
  else if freq = "weekly" then some (addDays c 7)
  else if freq = "monthly" then some (clampDay sd (addMonthsFirst c 1))
  else if freq = "quarterly" then some (clampDay sd (addMonthsFirst c 3))
  else if freq = "semiannually" then some (clampDay sd (addMonthsFirst c 6))
  else if freq = "annually" then some (clampDay sd ⟨c.y + 1, c.m, 1⟩)
  else none

/-- The inner roll-forward loop of `generate_schedule` (`src/app.py`
    lines 82–85): `while raw_date not in trading_days: current += 1 day`.
    `fuel` bounds the number of single-day steps; `none` means the loop did
    not finish within `fuel` steps. -/
def rollForward (tds : List Date) : Nat → Date → Option Date
  | 0, c => if c ∈ tds then some c else none
  | fuel + 1, c => if c ∈ tds then some c else rollForward tds fuel (nextDay c)

/-- Outcome of `generate_schedule`: either the returned list of contribution
    dates, or the `ValueError("Invalid frequency.")` raised at line 106. -/
inductive GenOut where
  | ok (schedule : List Date)
  | invalidFrequency
deriving DecidableEq

/-- The outer `while current <= end` loop of `generate_schedule`
    (`src/app.py` lines 81–106), starting from cursor `c`; `sd` is
    `start.day`, `rfuel` is the fuel given to each inner roll-forward loop,
    and the `Nat` argument is the fuel of the outer loop (`none` = fuel ran
    out before the loop terminated). -/
def genFrom (tds : List Date) (freq : String) (sd : Int) (endD : Date)
    (rfuel : Nat) : Nat → Date → Option GenOut
  | 0, _ => none
  | fuel + 1, c =>
    if dle c endD then
      match rollForward tds rfuel c with
      | none => none
      | some r =>
        match advance freq sd r with
        | none => some .invalidFrequency
        | some c2 =>
          match genFrom tds freq sd endD rfuel fuel c2 with
          | none => none
          | some .invalidFrequency => some .invalidFrequency
          | some (.ok l) => some (.ok (r :: l))
    else some (.ok [])

/-- `generate_schedule(start_date, end_date, frequency, trading_days)`
    (`src/app.py` lines 75–108), with explicit fuel for the two loops. -/
def generate_schedule (start endD : Date) (freq : String) (tds : List Date)
    (fuel rfuel : Nat) : Option GenOut :=
  genFrom tds freq start.d endD rfuel fuel start

/-! ### Basic facts about the date model -/

lemma daysInMonth_bounds (y m : Int) :
    28 ≤ daysInMonth y m ∧ daysInMonth y m ≤ 31 := by
  unfold daysInMonth; split_ifs <;> omega

lemma valid_bounds (a : Date) (h : Valid a) :
    1 ≤ a.y ∧ 1 ≤ a.m ∧ a.m ≤ 12 ∧ 1 ≤ a.d ∧ a.d ≤ 31 := by
  obtain ⟨y, m, d⟩ := a
  have hb := daysInMonth_bounds y m
  unfold Valid at h
  simp only at h ⊢
  omega

/-- Day-count measure on dates: strictly monotone with respect to `dlt`
    on valid dates, used to bound loop fuel. -/
def mu (a : Date) : Int := 600 * a.y + 40 * a.m + a.d

lemma mu_nonneg (a : Date) (h : Valid a) : 0 ≤ mu a := by
  have hb := valid_bounds a h
  unfold mu
  omega

lemma mu_lt_of_dlt (a b : Date) (ha : Valid a) (hb : Valid b)
    (h : dlt a b) : mu a < mu b := by
  have h1 := valid_bounds a ha
  have h2 := valid_bounds b hb
  unfold mu dlt at *
  omega

lemma mu_le_of_dle (a b : Date) (ha : Valid a) (hb : Valid b)
    (h : dle a b) : mu a ≤ mu b := by
  have h1 := valid_bounds a ha
  have h2 := valid_bounds b hb
  unfold mu dle at *
  omega

lemma dle_refl (a : Date) : dle a a := by unfold dle; omega

lemma dle_of_dlt (a b : Date) (h : dlt a b) : dle a b := by
  unfold dlt dle at *; omega

lemma dlt_of_dle_of_dlt (a b c : Date) (h1 : dle a b) (h2 : dlt b c) :
    dlt a c := by
  unfold dlt dle at *; omega

lemma dlt_of_dlt_of_dle (a b c : Date) (h1 : dlt a b) (h2 : dle b c) :
    dlt a c := by
  unfold dlt dle at *; omega

lemma dle_trans (a b c : Date) (h1 : dle a b) (h2 : dle b c) : dle a c := by
  unfold dle at *; omega

lemma dle_antisymm (a b : Date) (h1 : dle a b) (h2 : dle b a) : a = b := by
  obtain ⟨y, m, d⟩ := a
  obtain ⟨y2, m2, d2⟩ := b
  unfold dle at *
  simp only at h1 h2
  simp only [Date.mk.injEq]
  omega

lemma dlt_or_eq_of_dle (a b : Date) (h : dle a b) : dlt a b ∨ a = b := by
  obtain ⟨y, m, d⟩ := a
  obtain ⟨y2, m2, d2⟩ := b
  unfold dle dlt at *
  simp only at h ⊢
  simp only [Date.mk.injEq]
  omega

/-! ### `nextDay`: validity, strict growth, minimality -/

lemma nextDay_valid (a : Date) (h : Valid a) : Valid (nextDay a) := by
  obtain ⟨y, m, d⟩ := a
  have hb1 := daysInMonth_bounds y m
  have hb2 := daysInMonth_bounds y (m + 1)
  have hb3 := daysInMonth_bounds (y + 1) 1
  unfold Valid nextDay at *
  simp only at h ⊢
  split_ifs with h1 h2 <;> simp only <;> omega

lemma dlt_nextDay (a : Date) : dlt a (nextDay a) := by
  obtain ⟨y, m, d⟩ := a
  unfold dlt nextDay
  dsimp only
  split_ifs with h1 h2 <;> dsimp only <;> omega

/-- `nextDay a` is the immediate successor of `a` among valid dates: no
    valid date lies strictly between `a` and `nextDay a`. -/
lemma nextDay_min (a b : Date) (ha : Valid a) (hb : Valid b)
    (h : dlt a b) : dle (nextDay a) b := by
  obtain ⟨y, m, d⟩ := a
  obtain ⟨y2, m2, d2⟩ := b
  unfold Valid at ha hb
  unfold dlt at h
  unfold nextDay dle
  dsimp only at *
  split_ifs with hc1 hc2 <;> dsimp only <;>
    rcases h with h | ⟨rfl, h | ⟨rfl, h⟩⟩ <;> omega

lemma mu_nextDay_ge (a : Date) (h : Valid a) : mu a + 1 ≤ mu (nextDay a) := by
  have := mu_lt_of_dlt a (nextDay a) h (nextDay_valid a h) (dlt_nextDay a)
  omega

/-! ### `addDays` -/

lemma addDays_valid (a : Date) (n : Nat) (h : Valid a) :
    Valid (addDays a n) := by
  induction n generalizing a with
  | zero => exact h
  | succ k ih => exact ih (nextDay a) (nextDay_valid a h)

lemma dlt_addDays (a : Date) (n : Nat) (h : Valid a) :
    dlt a (addDays a (n + 1)) := by
  induction n generalizing a with
  | zero => exact dlt_nextDay a
  | succ k ih =>
    exact dlt_of_dlt_of_dle a (nextDay a) _ (dlt_nextDay a)
      (dle_of_dlt _ _ (ih (nextDay a) (nextDay_valid a h)))

/-! ### `advance`: validity, strict growth, recognized frequencies -/

/-- The six frequency strings recognized by the dispatch at
    `src/app.py` lines 89–104. -/
def recognizedFrequencies : List String :=
  ["daily", "weekly", "monthly", "quarterly", "semiannually", "annually"]

lemma clamp_addMonths_valid (c : Date) (n sd : Int) (hn : 0 ≤ n)
    (hc : Valid c) (hsd1 : 1 ≤ sd) :
    Valid (clampDay sd (addMonthsFirst c n)) := by
  have hb := valid_bounds c hc
  have hdim := daysInMonth_bounds (c.y + (c.m - 1 + n) / 12)
    ((c.m - 1 + n) % 12 + 1)
  unfold Valid clampDay addMonthsFirst
  dsimp only
  split_ifs <;> omega

lemma dlt_clamp_addMonths (c : Date) (n sd : Int) (hn : 1 ≤ n)
    (hc : Valid c) : dlt c (clampDay sd (addMonthsFirst c n)) := by
  have hb := valid_bounds c hc
  unfold dlt clampDay addMonthsFirst
  dsimp only
  omega

lemma advance_valid (freq : String) (sd : Int) (c c2 : Date)
    (hc : Valid c) (hsd1 : 1 ≤ sd)
    (h : advance freq sd c = some c2) : Valid c2 := by
  have hb := valid_bounds c hc
  unfold advance at h
  split_ifs at h <;> injection h with h <;> subst h
  · exact nextDay_valid c hc
  · exact addDays_valid c 7 hc
  · exact clamp_addMonths_valid c 1 sd (by omega) hc hsd1
  · exact clamp_addMonths_valid c 3 sd (by omega) hc hsd1
  · exact clamp_addMonths_valid c 6 sd (by omega) hc hsd1
  · have hdim := daysInMonth_bounds (c.y + 1) c.m
    unfold Valid clampDay
    dsimp only
    split_ifs <;> omega

lemma advance_gt (freq : String) (sd : Int) (c c2 : Date)
    (hc : Valid c) (h : advance freq sd c = some c2) : dlt c c2 := by
  unfold advance at h
  split_ifs at h <;> injection h with h <;> subst h
  · exact dlt_nextDay c
  · exact dlt_addDays c 6 hc
  · exact dlt_clamp_addMonths c 1 sd (by omega) hc
  · exact dlt_clamp_addMonths c 3 sd (by omega) hc
  · exact dlt_clamp_addMonths c 6 sd (by omega) hc
  · unfold dlt clampDay
    dsimp only
    omega

lemma advance_eq_none_of_unrecognized (freq : String) (sd : Int) (c : Date)
    (h : freq ∉ recognizedFrequencies) : advance freq sd c = none := by
  unfold advance
  split_ifs with h1 h2 h3 h4 h5 h6 <;>
    first
      | rfl
      | (exfalso; apply h
         simp only [recognizedFrequencies, List.mem_cons, List.not_mem_nil,
           or_false]
         tauto)

lemma advance_isSome_of_recognized (freq : String) (sd : Int) (c : Date)
    (h : freq ∈ recognizedFrequencies) :
    ∃ c2, advance freq sd c = some c2 := by
  simp only [recognizedFrequencies, List.mem_cons, List.not_mem_nil,
    or_false] at h
  rcases h with rfl | rfl | rfl | rfl | rfl | rfl <;>
    exact ⟨_, rfl⟩

/-! ### `rollForward`: result properties, totality, divergence -/

lemma rollForward_spec (tds : List Date) (rfuel : Nat) (c r : Date)
    (h : rollForward tds rfuel c = some r) :
    r ∈ tds ∧ dle c r ∧ (Valid c → Valid r) := by
  induction rfuel generalizing c with
  | zero =>
    unfold rollForward at h
    split_ifs at h with hm
    · injection h with h; subst h
      exact ⟨hm, dle_refl _, fun hv => hv⟩
  | succ n ih =>
    unfold rollForward at h
    split_ifs at h with hm
    · injection h with h; subst h
      exact ⟨hm, dle_refl _, fun hv => hv⟩
    · obtain ⟨h1, h2, h3⟩ := ih (nextDay c) h
      exact ⟨h1, dle_trans _ _ _ (dle_of_dlt _ _ (dlt_nextDay c)) h2,
        fun hv => h3 (nextDay_valid c hv)⟩

lemma rollForward_total (tds : List Date) (d : Date) (hd : d ∈ tds)
    (hdv : Valid d) :
    ∀ rfuel c, Valid c → dle c d → (mu d - mu c).toNat ≤ rfuel →
      ∃ r, rollForward tds rfuel c = some r ∧ dle r d := by
  intro rfuel
  induction rfuel with
  | zero =>
    intro c hcv hcd hfu
    by_cases hm : c ∈ tds
    · exact ⟨c, by simp [rollForward, hm], hcd⟩
    · exfalso
      rcases dlt_or_eq_of_dle c d hcd with hlt | rfl
      · have := mu_lt_of_dlt c d hcv hdv hlt
        omega
      · exact hm hd
  | succ n ih =>
    intro c hcv hcd hfu
    by_cases hm : c ∈ tds
    · exact ⟨c, by simp [rollForward, hm], hcd⟩
    · rcases dlt_or_eq_of_dle c d hcd with hlt | rfl
      · have hmin := nextDay_min c d hcv hdv hlt
        have hmu := mu_nextDay_ge c hcv
        have hmu2 := mu_lt_of_dlt c d hcv hdv hlt
        obtain ⟨r, hr, hrd⟩ :=
          ih (nextDay c) (nextDay_valid c hcv) hmin (by omega)
        exact ⟨r, by simp [rollForward, hm, hr], hrd⟩
      · exact absurd hd hm

lemma rollForward_empty (rfuel : Nat) (c : Date) :
    rollForward [] rfuel c = none := by
  induction rfuel generalizing c with
  | zero => simp [rollForward]
  | succ n ih => simp [rollForward, ih]

lemma dlt_irrefl (a : Date) : ¬ dlt a a := by unfold dlt; omega

/-- If every trading day lies strictly before the cursor, the roll-forward
    loop never finds a trading day: it diverges for every fuel. -/
lemma rollForward_none_of_all_lt (tds : List Date) :
    ∀ rfuel (c : Date), Valid c → (∀ d ∈ tds, Valid d → dlt d c) →
      rollForward tds rfuel c = none := by
  intro rfuel
  induction rfuel with
  | zero =>
    intro c hv hall
    unfold rollForward
    rw [if_neg (fun hm => absurd (hall c hm hv) (dlt_irrefl c))]
  | succ n ih =>
    intro c hv hall
    unfold rollForward
    rw [if_neg (fun hm => absurd (hall c hm hv) (dlt_irrefl c))]
    exact ih (nextDay c) (nextDay_valid c hv)
      (fun d hd hdv => dlt_of_dlt_of_dle d c (nextDay c) (hall d hd hdv)
        (dle_of_dlt c (nextDay c) (dlt_nextDay c)))

/-! ### `genFrom`: unfolding equations and structural lemmas -/

lemma genFrom_zero (tds : List Date) (freq : String) (sd : Int) (endD : Date)
    (rfuel : Nat) (c : Date) : genFrom tds freq sd endD rfuel 0 c = none := rfl

lemma genFrom_succ (tds : List Date) (freq : String) (sd : Int) (endD : Date)
    (rfuel fuel : Nat) (c : Date) :
    genFrom tds freq sd endD rfuel (fuel + 1) c =
      if dle c endD then
        match rollForward tds rfuel c with
        | none => none
        | some r =>
          match advance freq sd r with
          | none => some .invalidFrequency
          | some c2 =>
            match genFrom tds freq sd endD rfuel fuel c2 with
            | none => none
            | some .invalidFrequency => some .invalidFrequency
            | some (.ok l) => some (.ok (r :: l))
      else some (.ok []) := rfl

/-- Invariant of the outer loop: a successfully returned schedule consists
    of trading days, is strictly increasing, and all its dates are on or
    after the cursor the loop started from. -/
lemma genFrom_ok_inv (tds : List Date) (freq : String) (sd : Int)
    (endD : Date) (rfuel : Nat) (hsd1 : 1 ≤ sd) :
    ∀ fuel c l, Valid c →
      genFrom tds freq sd endD rfuel fuel c = some (.ok l) →
      (∀ x ∈ l, x ∈ tds) ∧ List.Pairwise dlt l ∧ (∀ x ∈ l, dle c x) := by
  intro fuel
  induction fuel with
  | zero =>
    intro c l hcv h
    rw [genFrom_zero] at h
    cases h
  | succ n ih =>
    intro c l hcv h
    rw [genFrom_succ] at h
    split_ifs at h with hc
    · rcases hroll : rollForward tds rfuel c with _ | r <;>
        rw [hroll] at h <;> (try dsimp only at h)
      · cases h
      · obtain ⟨hrtd, hcr, hrv0⟩ := rollForward_spec tds rfuel c r hroll
        have hrv : Valid r := hrv0 hcv
        rcases hadv : advance freq sd r with _ | c2 <;>
          rw [hadv] at h <;> (try dsimp only at h)
        · cases h
        · have hrc2 : dlt r c2 := advance_gt freq sd r c2 hrv hadv
          have hc2v : Valid c2 := advance_valid freq sd r c2 hrv hsd1 hadv
          rcases hrec : genFrom tds freq sd endD rfuel n c2 with _ | g <;>
            rw [hrec] at h <;> (try dsimp only at h)
          · cases h
          · cases g with
            | invalidFrequency => cases h
            | ok l2 =>
              injection h with h
              injection h with h
              subst h
              obtain ⟨ht, hp, hge⟩ := ih c2 l2 hc2v hrec
              refine ⟨?_, ?_, ?_⟩
              · intro x hx
                rcases List.mem_cons.mp hx with rfl | hx
                · exact hrtd
                · exact ht x hx
              · refine List.pairwise_cons.mpr ⟨?_, hp⟩
                intro x hx
                exact dlt_of_dlt_of_dle r c2 x hrc2 (hge x hx)
              · intro x hx
                rcases List.mem_cons.mp hx with rfl | hx
                · exact hcr
                · exact dle_trans c r x hcr
                    (dle_of_dlt r x (dlt_of_dlt_of_dle r c2 x hrc2 (hge x hx)))
    · injection h with h
      injection h with h
      subst h
      exact ⟨fun x hx => absurd hx (List.not_mem_nil x),
        List.Pairwise.nil, fun x hx => absurd hx (List.not_mem_nil x)⟩

/-- The nominal cursors the outer loop of `generate_schedule` passes
    through, starting from `st`: `st` itself, and, from any reached cursor
    still within the horizon whose roll and period-advance both succeed,
    the advanced cursor. -/
inductive ReachableCursor (tds : List Date) (freq : String) (sd : Int)
    (endD : Date) (st : Date) : Date → Prop where
  | init : ReachableCursor tds freq sd endD st st
  | step (c r c2 : Date) (rf : Nat) :
      ReachableCursor tds freq sd endD st c → dle c endD →
      rollForward tds rf c = some r → advance freq sd r = some c2 →
      ReachableCursor tds freq sd endD st c2

/-- A uniform fuel bound for the inner roll-forward loop. -/
def rollFuelBound (tds : List Date) : Nat :=
  (tds.map (fun d => (mu d).toNat)).foldr max 0

lemma le_rollFuelBound (tds : List Date) (d : Date) (h : d ∈ tds) :
    (mu d).toNat ≤ rollFuelBound tds := by
  induction tds with
  | nil => cases h
  | cons a l ih =>
    simp only [rollFuelBound, List.map_cons, List.foldr_cons] at *
    rcases List.mem_cons.mp h with rfl | hm
    · exact Nat.le_max_left _ _
    · exact le_trans (ih hm) (Nat.le_max_right _ _)

/-- Totality of the outer loop: if every reachable nominal cursor within
    the horizon has some trading day on or after it, then, with enough
    fuel, `genFrom` returns a schedule. -/
lemma genFrom_total (tds : List Date) (freq : String) (sd : Int)
    (endD st : Date) (hsd1 : 1 ≤ sd) (hend : Valid endD)
    (hf : freq ∈ recognizedFrequencies)
    (H : ∀ c, ReachableCursor tds freq sd endD st c → Valid c →
      dle c endD → ∃ d ∈ tds, Valid d ∧ dle c d) :
    ∀ fuel c, ReachableCursor tds freq sd endD st c → Valid c →
      (mu endD + 1 - mu c).toNat < fuel →
      ∃ l, genFrom tds freq sd endD (rollFuelBound tds) fuel c =
        some (.ok l) := by
  intro fuel
  induction fuel with
  | zero => intro c _ _ hfu; omega
  | succ n ih =>
    intro c hreach hcv hfu
    by_cases hc : dle c endD
    · obtain ⟨d, hdmem, hdv, hcd⟩ := H c hreach hcv hc
      have hbound : ((mu d - mu c).toNat : Nat) ≤ rollFuelBound tds := by
        have h1 := mu_nonneg c hcv
        have h2 := le_rollFuelBound tds d hdmem
        omega
      obtain ⟨r, hroll, hrd⟩ :=
        rollForward_total tds d hdmem hdv (rollFuelBound tds) c hcv hcd hbound
      obtain ⟨hrtd, hcr, hrv0⟩ :=
        rollForward_spec tds (rollFuelBound tds) c r hroll
      have hrv : Valid r := hrv0 hcv
      obtain ⟨c2, hadv⟩ := advance_isSome_of_recognized freq sd r hf
      have hc2v : Valid c2 := advance_valid freq sd r c2 hrv hsd1 hadv
      have hrc2 : dlt r c2 := advance_gt freq sd r c2 hrv hadv
      have hreach2 : ReachableCursor tds freq sd endD st c2 :=
        .step c r c2 (rollFuelBound tds) hreach hc hroll hadv
      have hmu1 : mu c ≤ mu r := mu_le_of_dle c r hcv hrv hcr
      have hmu2 : mu r < mu c2 := mu_lt_of_dlt r c2 hrv hc2v hrc2
      have hmu3 : mu c ≤ mu endD := mu_le_of_dle c endD hcv hend hc
      obtain ⟨l, hrec⟩ := ih c2 hreach2 hc2v (by omega)
      exact ⟨r :: l, by rw [genFrom_succ]; simp [hc, hroll, hadv, hrec]⟩
    · exact ⟨[], by rw [genFrom_succ]; simp [hc]⟩

/-- With an empty trading-day list, the inner roll-forward loop never
    finds a trading day, so generation never returns, whatever the fuel. -/
lemma genFrom_empty_none (freq : String) (sd : Int) (endD : Date)
    (fuel rfuel : Nat) (c : Date) (hc : dle c endD) :
    genFrom [] freq sd endD rfuel fuel c = none := by
  cases fuel with
  | zero => rfl
  | succ n => rw [genFrom_succ]; simp [hc, rollForward_empty]

/-- An unrecognized frequency makes the first iteration of the outer loop
    raise `ValueError("Invalid frequency.")` right after the first
    contribution date has been resolved. -/
lemma genFrom_unrecognized (tds : List Date) (freq : String) (sd : Int)
    (endD : Date) (fuel rfuel : Nat) (c r : Date)
    (hfreq : freq ∉ recognizedFrequencies) (hc : dle c endD)
    (hroll : rollForward tds rfuel c = some r) :
    genFrom tds freq sd endD rfuel (fuel + 1) c = some .invalidFrequency := by
  rw [genFrom_succ]
  simp [hc, hroll, advance_eq_none_of_unrecognized freq sd r hfreq]

/-- The date resolved (rolled to) for a period whose nominal start is
    within the horizon is part of any schedule the loop returns. -/
lemma genFrom_rolled_mem (tds : List Date) (freq : String) (sd : Int)
    (endD : Date) (fuel rfuel : Nat) (c r : Date) (l : List Date)
    (hc : dle c endD) (hroll : rollForward tds rfuel c = some r)
    (h : genFrom tds freq sd endD rfuel (fuel + 1) c = some (.ok l)) :
    r ∈ l := by
  rw [genFrom_succ] at h
  rw [if_pos hc, hroll] at h
  try dsimp only at h
  rcases hadv : advance freq sd r with _ | c2 <;>
    rw [hadv] at h <;> (try dsimp only at h)
  · cases h
  · rcases hrec : genFrom tds freq sd endD rfuel fuel c2 with _ | g <;>
      rw [hrec] at h <;> (try dsimp only at h)
    · cases h
    · cases g with
      | invalidFrequency => cases h
      | ok l2 =>
        injection h with h
        injection h with h
        subst h
        exact List.mem_cons_self r l2

/-! ### STEP 5/6 of `src/app.py`: DCA simulation and performance metrics -/

/-- Exact-date price lookup
    `data[data['Date'] == pd.to_datetime(date)][price_column].values[0]`
    (`src/app.py` line 121): the price of the first row carrying that date;
    `none` models the `IndexError` raised by `.values[0]` when no row
    matches. -/
def lookupPrice (data : List (Date × ℚ)) (dt : Date) : Option ℚ :=
  (data.find? (fun p => p.1 == dt)).map Prod.snd

/-- The DCA accumulation loop (`src/app.py` lines 117–124), carrying the
    running pair (total_contributions, total_shares). -/
def dcaLoop (data : List (Date × ℚ)) (amount : ℚ) :
    List Date → ℚ × ℚ → Option (ℚ × ℚ)
  | [], acc => some acc
  | dt :: rest, (tc, ts) =>
    match lookupPrice data dt with
    | none => none
    | some price => dcaLoop data amount rest (tc + amount, ts + amount / price)

/-- The scalar outputs of STEP 5/6 of the script. -/
structure DCAStats where
  total_contributions : ℚ
  total_shares : ℚ
  ending_value : ℚ
  growth : ℚ
deriving DecidableEq

/-- `latest_price = data[price_column].iloc[-1]` (`src/app.py` line 127). -/
def latestPrice (data : List (Date × ℚ)) : Option ℚ :=
  (data.getLast?).map Prod.snd

/-- STEP 5 and lines 127–129 of STEP 6: run the DCA loop over the schedule
    and derive ending value and growth. -/
def dcaStats (data : List (Date × ℚ)) (schedule : List Date) (amount : ℚ) :
    Option DCAStats :=
  match dcaLoop data amount schedule (0, 0) with
  | none => none
  | some (tc, ts) =>
    match latestPrice data with
    | none => none
    | some lp => some ⟨tc, ts, ts * lp, ts * lp - tc⟩

/-- `return_pct_dca = (growth_dca / total_contributions) * 100`
    (`src/app.py` line 130).  The line has no guard: when
    `total_contributions == 0` the Python division is undefined
    (`ZeroDivisionError` for plain floats, NaN for numpy scalars), which the
    model expresses with `none`. -/
def return_pct_dca (s : DCAStats) : Option ℚ :=
  if s.total_contributions = 0 then none
  else some (s.growth / s.total_contributions * 100)

/-- Day number of a date (days since 1970-01-01), the proleptic-Gregorian
    day count that underlies Python's `datetime` subtraction. -/
def toRD (a : Date) : Int :=
  let yy := if a.m ≤ 2 then a.y - 1 else a.y
  let era := (if 0 ≤ yy then yy else yy - 399) / 400
  let yoe := yy - era * 400
  let mp := (a.m + 9) % 12
  let doy := (153 * mp + 2) / 5 + a.d - 1
  let doe := yoe * 365 + yoe / 4 - yoe / 100 + doy
  era * 146097 + doe - 719468

/-- `(end_date_obj - start_date_obj).days` (`src/app.py` line 133). -/
def daysBetween (s e : Date) : Int := toRD e - toRD s

/-- `years = (end_date_obj - start_date_obj).days / 365.25`
    (`src/app.py` line 133). -/
def yearsBetween (s e : Date) : ℚ := (daysBetween s e : ℚ) / (365.25 : ℚ)

/-- STEP 6.5 (`src/app.py` lines 132–137): CAGR of the DCA strategy,
    `(ending_value / total_contributions) ** (1 / years) - 1` when
    `years > 0 and total_contributions > 0`, else `0.0`.  Real
    exponentiation is modelled with `Real.rpow`. -/
noncomputable def cagr_dca (s e : Date)
    (ending_value total_contributions : ℚ) : ℝ :=
  if 0 < yearsBetween s e ∧ 0 < total_contributions then
    Real.rpow ((ending_value : ℝ) / (total_contributions : ℝ))
      (1 / ((yearsBetween s e : ℚ) : ℝ)) - 1
  else 0

/-! ### Lump-sum simulation (`src/app.py` lines 140–143 and 177–179)

The script feeds these lines `monthly_data = data.resample('M').last()`;
per §4.4 of the spec the lump-sum simulator's input contract is that
already-resampled series, which the definitions below take as the
`resampled` argument. -/

/-- `initial_price = monthly_data[price_column].iloc[0]` (line 141);
    `none` models the `IndexError` on an empty series. -/
def initialPrice (resampled : List (Date × ℚ)) : Option ℚ :=
  (resampled.head?).map Prod.snd

/-- `shares_lump_sum = lump_sum_amount / initial_price` (line 142). -/
def shares_lump_sum (resampled : List (Date × ℚ)) (amount : ℚ) : Option ℚ :=
  (initialPrice resampled).map (fun p => amount / p)

/-- `portfolio_value_lump_sum = shares_lump_sum * monthly_data[price_column]`
    (line 143): the pointwise value series on the resampled date axis. -/
def portfolio_value_lump_sum (resampled : List (Date × ℚ)) (amount : ℚ) :
    Option (List (Date × ℚ)) :=
  (shares_lump_sum resampled amount).map
    (fun sh => resampled.map (fun p => (p.1, sh * p.2)))

/-- `portfolio_value_lump_sum.iloc[-1]` (line 178): ending value of the
    lump-sum strategy. -/
def lump_sum_final (resampled : List (Date × ℚ)) (amount : ℚ) : Option ℚ :=
  match portfolio_value_lump_sum resampled amount with
  | none => none
  | some l => (l.getLast?).map Prod.snd

/-- `((portfolio_value_lump_sum.iloc[-1] - lump_sum_amount) /
    lump_sum_amount) * 100` (line 179). -/
def lump_sum_return_pct (resampled : List (Date × ℚ)) (amount : ℚ) :
    Option ℚ :=
  (lump_sum_final resampled amount).map (fun fv => (fv - amount) / amount * 100)

/-! ### The submitted-run pipeline (`src/app.py` lines 35–130) -/

/-- Outcome of one submitted run. -/
inductive RunResult where
  | emptyPriceSeries
  | invalidFrequency
  | report (schedule : List Date) (stats : DCAStats) (returnPct : Option ℚ)
deriving DecidableEq

/-- The main flow of a submitted run: the `data.empty` check of
    `src/app.py` lines 46–48 (`st.error` + `st.stop()`, modelled as
    `RunResult.emptyPriceSeries`) runs before trading days are extracted
    (line 111), before `generate_schedule` is called (line 114) and before
    the DCA simulation and metrics (lines 117–130).  `data` is the
    date-to-price series, chronological per the data model, so the sorted
    trading-day list of line 111 is its list of dates. -/
def runSimulation (data : List (Date × ℚ)) (start endD : Date)
    (freq : String) (amount : ℚ) (fuel rfuel : Nat) : Option RunResult :=
  if data = [] then some .emptyPriceSeries
  else
    match generate_schedule start endD freq (data.map Prod.fst) fuel rfuel with
    | none => none
    | some .invalidFrequency => some .invalidFrequency
    | some (.ok sched) =>
      match dcaStats data sched amount with
      | none => none
      | some st => some (.report sched st (return_pct_dca st))

/-! ### Instrumented schedule generation: observing the nominal cursor -/

/-- The same outer loop as `genFrom`, recording the value of the Python
    variable `current` at the top of each iteration (`src/app.py` line 81),
    i.e. the nominal (pre-roll) cursor of each period; diverging and
    invalid-frequency runs give `none`. -/
def nominalCursors (tds : List Date) (freq : String) (sd : Int) (endD : Date)
    (rfuel : Nat) : Nat → Date → Option (List Date)
  | 0, _ => none
  | fuel + 1, c =>
    if dle c endD then
      match rollForward tds rfuel c with
      | none => none
      | some r =>
        match advance freq sd r with
        | none => none
        | some c2 =>
          match nominalCursors tds freq sd endD rfuel fuel c2 with
          | none => none
          | some l => some (c :: l)
    else some []

/-! ### Concrete inputs used by the scenario claims -/

/-- 1970-01-01 has day number 0 and was a Thursday, so a date is a Saturday
    iff `toRD % 7 = 2` and a Sunday iff `toRD % 7 = 3`. -/
def isWeekday (a : Date) : Bool :=
  toRD a % 7 != 2 && toRD a % 7 != 3

/-- Every weekday from 2020-01-01 through 2020-03-31: the trading days of
    the DCA scenario in §8 of the spec. -/
def tradingDays3 : List Date :=
  ((List.range 91).map (fun k => addDays ⟨2020, 1, 1⟩ k)).filter isWeekday

/-- The scenario price series: constant price 100 on those days. -/
def data3 : List (Date × ℚ) := tradingDays3.map (fun d => (d, (100 : ℚ)))

/-- Every day from 2020-01-01 through 2020-01-20, all trading days. -/
def tdsJan20 : List Date :=
  (List.range 20).map (fun k => addDays ⟨2020, 1, 1⟩ k)

/-- The same trading days with 2020-01-08 removed. -/
def tdsJan20NoJan8 : List Date :=
  tdsJan20.filter (fun d => d != ⟨2020, 1, 8⟩)

/-- The resampled series of the lump-sum scenario in §8 of the spec:
    entry price 50, final resampled price 100. -/
def resampledLS : List (Date × ℚ) :=
  [(⟨2020, 1, 31⟩, 50), (⟨2020, 2, 29⟩, 100)]

example : tradingDays3.length = 65 := by decide
example : toRD ⟨2020, 1, 1⟩ = 18262 := by decide
example :
    generate_schedule ⟨2020, 1, 1⟩ ⟨2020, 3, 31⟩ "monthly" tradingDays3 12 5 =
      some (.ok [⟨2020, 1, 1⟩, ⟨2020, 2, 3⟩, ⟨2020, 3, 2⟩]) := by decide

example : nextDay ⟨2020, 2, 28⟩ = ⟨2020, 2, 29⟩ := by decide
example : nextDay ⟨2019, 2, 28⟩ = ⟨2019, 3, 1⟩ := by decide
example : nextDay ⟨2020, 12, 31⟩ = ⟨2021, 1, 1⟩ := by decide
example : advance "monthly" 31 ⟨2020, 1, 15⟩ = some ⟨2020, 2, 28⟩ := by decide
example : advance "quarterly" 5 ⟨2020, 11, 3⟩ = some ⟨2021, 2, 5⟩ := by decide
example :
    generate_schedule ⟨2020, 1, 1⟩ ⟨2020, 1, 10⟩ "weekly"
      [⟨2020, 1, 1⟩, ⟨2020, 1, 8⟩] 5 3 =
    some (.ok [⟨2020, 1, 1⟩, ⟨2020, 1, 8⟩]) := by decide

/-! ### Helper lemmas for constant-price series -/

lemma lookupPrice_constant (l : List Date) (p : ℚ) (dt : Date) (h : dt ∈ l) :
    lookupPrice (l.map (fun d => (d, p))) dt = some p := by
  induction l with
  | nil => cases h
  | cons a rest ih =>
    by_cases ha : a = dt
    · subst ha
      unfold lookupPrice
      rw [List.map_cons, List.find?_cons_of_pos _ (by simp)]
      rfl
    · have hmem : dt ∈ rest := by
        rcases List.mem_cons.mp h with rfl | hm
        · exact absurd rfl ha
        · exact hm
      have hrest := ih hmem
      unfold lookupPrice at hrest ⊢
      rw [List.map_cons, List.find?_cons_of_neg _ (by simp [ha])]
      exact hrest

lemma latestPrice_constant (l : List Date) (p : ℚ) (h : l ≠ []) :
    latestPrice (l.map (fun d => (d, p))) = some p := by
  unfold latestPrice
  rw [List.getLast?_map, List.getLast?_eq_getLast l h]
  rfl

/-! ### Claim theorems -/

/-- C2: for every start ≤ end, every frequency, and every trading-day set
    on which generation terminates with a schedule, the schedule is a
    strictly increasing sequence of dates and every date in it belongs to
    the supplied trading-day set. -/
theorem c2_schedule_increasing_in_trading_days (tds : List Date)
    (freq : String) (start endD : Date) (fuel rfuel : Nat) (l : List Date)
    (hs : Valid start)
    (h : generate_schedule start endD freq tds fuel rfuel = some (.ok l)) :
    List.Pairwise dlt l ∧ ∀ x ∈ l, x ∈ tds := by
  have hsd : 1 ≤ start.d := (valid_bounds start hs).2.2.2.1
  unfold generate_schedule at h
  obtain ⟨h1, h2, _⟩ :=
    genFrom_ok_inv tds freq start.d endD rfuel hsd fuel start l hs h
  exact ⟨h2, h1⟩

/-- Witness for C2 at a concrete input: start 2020-01-01, end 2020-01-20,
    weekly, with every day of that range a trading day. -/
theorem c2_schedule_increasing_in_trading_days_witness :
    Valid ⟨2020, 1, 1⟩ ∧
    generate_schedule ⟨2020, 1, 1⟩ ⟨2020, 1, 20⟩ "weekly" tdsJan20 6 3 =
      some (.ok [⟨2020, 1, 1⟩, ⟨2020, 1, 8⟩, ⟨2020, 1, 15⟩]) ∧
    (List.Pairwise dlt [⟨2020, 1, 1⟩, ⟨2020, 1, 8⟩, ⟨2020, 1, 15⟩] ∧
      ∀ x ∈ [(⟨2020, 1, 1⟩ : Date), ⟨2020, 1, 8⟩, ⟨2020, 1, 15⟩],
        x ∈ tdsJan20) :=
  ⟨by decide, by decide,
    c2_schedule_increasing_in_trading_days tdsJan20 "weekly" ⟨2020, 1, 1⟩
      ⟨2020, 1, 20⟩ 6 3 [⟨2020, 1, 1⟩, ⟨2020, 1, 8⟩, ⟨2020, 1, 15⟩]
      (by decide) (by decide)⟩

/-- C3: on trading days = every weekday of 2020-01-01..2020-03-31 at
    constant price 100, with amount 200, monthly frequency, start
    2020-01-01, end 2020-03-31, the schedule is
    [2020-01-01, 2020-02-03, 2020-03-02] (02-01 Saturday and 03-01 Sunday
    both roll forward to the Monday), and the DCA simulation gives
    total_shares = 6, ending_value = 600, growth = 0 and return_pct = 0. -/
theorem c3_monthly_weekday_scenario :
    generate_schedule ⟨2020, 1, 1⟩ ⟨2020, 3, 31⟩ "monthly" tradingDays3 12 5 =
      some (.ok [⟨2020, 1, 1⟩, ⟨2020, 2, 3⟩, ⟨2020, 3, 2⟩]) ∧
    dcaStats data3 [⟨2020, 1, 1⟩, ⟨2020, 2, 3⟩, ⟨2020, 3, 2⟩] 200 =
      some ⟨600, 6, 600, 0⟩ ∧
    return_pct_dca ⟨600, 6, 600, 0⟩ = some 0 := by
  refine ⟨by decide, ?_, ?_⟩
  · have h1 : lookupPrice data3 ⟨2020, 1, 1⟩ = some 100 :=
      lookupPrice_constant tradingDays3 100 _ (by decide)
    have h2 : lookupPrice data3 ⟨2020, 2, 3⟩ = some 100 :=
      lookupPrice_constant tradingDays3 100 _ (by decide)
    have h3 : lookupPrice data3 ⟨2020, 3, 2⟩ = some 100 :=
      lookupPrice_constant tradingDays3 100 _ (by decide)
    have h4 : latestPrice data3 = some 100 :=
      latestPrice_constant tradingDays3 100 (by decide)
    have hl : dcaLoop data3 200 [⟨2020, 1, 1⟩, ⟨2020, 2, 3⟩, ⟨2020, 3, 2⟩]
        (0, 0) = some (600, 6) := by
      simp only [dcaLoop, h1, h2, h3]
      norm_num
    unfold dcaStats
    rw [hl, h4]
    norm_num
  · unfold return_pct_dca
    norm_num

/-- C4, counterexample: a run whose schedule is empty (start after end,
    non-empty data) reaches line 130 with `total_contributions = 0`, and
    the percentage return is then undefined (the division has a zero
    denominator), not 0: the claim that it "is defined as 0 rather than
    raising" fails on this input. -/
theorem c4_counterexample :
    runSimulation [(⟨2020, 1, 2⟩, 100)] ⟨2020, 2, 1⟩ ⟨2020, 1, 1⟩
        "monthly" 200 5 5 =
      some (.report [] ⟨0, 0, 0, 0⟩ none) ∧
    return_pct_dca ⟨0, 0, 0, 0⟩ = none ∧
    ¬ return_pct_dca ⟨0, 0, 0, 0⟩ = some 0 := by
  have hgen : generate_schedule ⟨2020, 2, 1⟩ ⟨2020, 1, 1⟩ "monthly"
      [⟨2020, 1, 2⟩] 5 5 = some (.ok []) := by decide
  refine ⟨?_, by simp [return_pct_dca], by simp [return_pct_dca]⟩
  unfold runSimulation
  rw [if_neg (by simp : ¬ ([((⟨2020, 1, 2⟩ : Date), (100 : ℚ))] = []))]
  rw [show ([((⟨2020, 1, 2⟩ : Date), (100 : ℚ))].map Prod.fst) =
    [(⟨2020, 1, 2⟩ : Date)] from rfl]
  rw [hgen]
  dsimp only
  have hst : dcaStats [(⟨2020, 1, 2⟩, 100)] [] 200 = some ⟨0, 0, 0, 0⟩ := by
    unfold dcaStats dcaLoop latestPrice
    norm_num
  rw [hst]
  dsimp only
  have hret : return_pct_dca ⟨0, 0, 0, 0⟩ = none := by simp [return_pct_dca]
  rw [hret]

/-- C4, amended: when `total_contributions = 0`, the percentage-return
    computation of line 130 is undefined (zero-denominator division:
    `ZeroDivisionError`, or NaN under numpy scalars) rather than being
    defined as 0; only the CAGR metric (lines 134–137) is guarded to 0. -/
theorem c4_return_pct_undefined_on_zero_contributed (s : DCAStats)
    (h : s.total_contributions = 0) : return_pct_dca s = none := by
  unfold return_pct_dca
  rw [if_pos h]

/-- Witness for the amended C4 at a concrete record with zero total
    contributed. -/
theorem c4_return_pct_undefined_on_zero_contributed_witness :
    return_pct_dca ⟨0, 5, 500, 500⟩ = none :=
  c4_return_pct_undefined_on_zero_contributed ⟨0, 5, 500, 500⟩ rfl

/-- C6: generation stops only based on the nominal (pre-roll) cursor
    exceeding `end`, checked before rolling; so for a period whose nominal
    start `c` is ≤ end, the resolved (possibly rolled-past-end) trading day
    `r` appears in the returned schedule. -/
theorem c6_rolled_past_end_included (tds : List Date) (freq : String)
    (sd : Int) (endD : Date) (fuel rfuel : Nat) (c r : Date) (l : List Date)
    (hc : dle c endD) (hroll : rollForward tds rfuel c = some r)
    (h : genFrom tds freq sd endD rfuel (fuel + 1) c = some (.ok l)) :
    r ∈ l :=
  genFrom_rolled_mem tds freq sd endD fuel rfuel c r l hc hroll h

/-- Witness for C6: start = end = 2020-01-04 (not a trading day), the only
    trading day is 2020-01-06; the rolled date lies past `end` and is still
    in the schedule. -/
theorem c6_rolled_past_end_included_witness :
    dlt ⟨2020, 1, 4⟩ ⟨2020, 1, 6⟩ ∧
    genFrom [⟨2020, 1, 6⟩] "monthly" 4 ⟨2020, 1, 4⟩ 3 2 ⟨2020, 1, 4⟩ =
      some (.ok [⟨2020, 1, 6⟩]) ∧
    (⟨2020, 1, 6⟩ : Date) ∈ [(⟨2020, 1, 6⟩ : Date)] :=
  ⟨by decide, by decide,
    c6_rolled_past_end_included [⟨2020, 1, 6⟩] "monthly" 4 ⟨2020, 1, 4⟩ 1 3
      ⟨2020, 1, 4⟩ ⟨2020, 1, 6⟩ [⟨2020, 1, 6⟩] (by decide) (by decide)
      (by decide)⟩

/-- C8: for a frequency outside the six recognized variants, as soon as the
    first period's trading day resolves (i.e. whenever a recognized
    frequency would have produced at least one contribution date),
    generation fails with the invalid-frequency error and no schedule is
    returned. -/
theorem c8_invalid_frequency (start endD : Date) (freq : String)
    (tds : List Date) (fuel rfuel : Nat) (r : Date)
    (hfreq : freq ∉ recognizedFrequencies) (hse : dle start endD)
    (hroll : rollForward tds rfuel start = some r) :
    generate_schedule start endD freq tds (fuel + 1) rfuel =
      some .invalidFrequency :=
  genFrom_unrecognized tds freq start.d endD fuel rfuel start r hfreq hse hroll

/-- Witness for C8: the unrecognized frequency "biweekly" on an input where
    a recognized frequency would contribute at least once. -/
theorem c8_invalid_frequency_witness :
    ("biweekly" ∉ recognizedFrequencies) ∧
    generate_schedule ⟨2020, 1, 1⟩ ⟨2020, 1, 10⟩ "biweekly" [⟨2020, 1, 1⟩]
        3 3 = some .invalidFrequency :=
  ⟨by decide,
    c8_invalid_frequency ⟨2020, 1, 1⟩ ⟨2020, 1, 10⟩ "biweekly" [⟨2020, 1, 1⟩]
      2 3 ⟨2020, 1, 1⟩ (by decide) (by decide) (by decide)⟩

/-- C9: with an empty price series, the run stops with the empty-series
    error (`src/app.py` lines 46–48), before schedule generation or
    simulation; no report is produced, whatever the other parameters. -/
theorem c9_empty_price_series (start endD : Date) (freq : String)
    (amount : ℚ) (fuel rfuel : Nat) :
    runSimulation [] start endD freq amount fuel rfuel =
      some .emptyPriceSeries ∧
    ∀ sched st ret, runSimulation [] start endD freq amount fuel rfuel ≠
      some (.report sched st ret) := by
  refine ⟨rfl, ?_⟩
  intro sched st ret h
  rw [show runSimulation [] start endD freq amount fuel rfuel =
    some .emptyPriceSeries from rfl] at h
  injection h with h
  cases h

/-- C5: elapsed years is the day difference divided by 365.25, and CAGR
    equals `(ending_value / total_contributions) ** (1 / years) - 1` when
    `years > 0` and `total_contributions > 0`, and equals 0 otherwise. -/
theorem c5_cagr_formula (s e : Date) (ev tc : ℚ) :
    yearsBetween s e = (daysBetween s e : ℚ) / (365.25 : ℚ) ∧
    (0 < yearsBetween s e → 0 < tc →
      cagr_dca s e ev tc =
        Real.rpow ((ev : ℝ) / (tc : ℝ))
          (1 / ((yearsBetween s e : ℚ) : ℝ)) - 1) ∧
    (¬ (0 < yearsBetween s e ∧ 0 < tc) → cagr_dca s e ev tc = 0) := by
  refine ⟨rfl, ?_, ?_⟩
  · intro h1 h2
    unfold cagr_dca
    rw [if_pos ⟨h1, h2⟩]
  · intro h
    unfold cagr_dca
    rw [if_neg h]

/-- Witness for C5: one year from 2020-01-01 to 2021-01-01 (366 days), with
    ending value 1200 on 600 contributed. -/
theorem c5_cagr_formula_witness :
    (0 : ℚ) < yearsBetween ⟨2020, 1, 1⟩ ⟨2021, 1, 1⟩ ∧ (0 : ℚ) < 600 ∧
    cagr_dca ⟨2020, 1, 1⟩ ⟨2021, 1, 1⟩ 1200 600 =
      Real.rpow (((1200 : ℚ) : ℝ) / ((600 : ℚ) : ℝ))
        (1 / ((yearsBetween ⟨2020, 1, 1⟩ ⟨2021, 1, 1⟩ : ℚ) : ℝ)) - 1 := by
  have hy : (0 : ℚ) < yearsBetween ⟨2020, 1, 1⟩ ⟨2021, 1, 1⟩ := by
    have hd : daysBetween ⟨2020, 1, 1⟩ ⟨2021, 1, 1⟩ = 366 := by decide
    unfold yearsBetween
    rw [hd]
    norm_num
  exact ⟨hy, by norm_num,
    (c5_cagr_formula ⟨2020, 1, 1⟩ ⟨2021, 1, 1⟩ 1200 600).2.1 hy (by norm_num)⟩

/-- C7: for the lump-sum strategy on a non-empty resampled series, shares
    is the amount divided by the first resampled price, every resampled
    point's value is shares times that point's price, and the ending value
    (and the return percentage of line 179) come from the last resampled
    point. -/
theorem c7_lump_sum (resampled : List (Date × ℚ)) (amount : ℚ)
    (h : resampled ≠ []) :
    ∃ sh : ℚ, sh = amount / (resampled.head h).2 ∧
      shares_lump_sum resampled amount = some sh ∧
      portfolio_value_lump_sum resampled amount =
        some (resampled.map (fun p => (p.1, sh * p.2))) ∧
      (∀ i : Nat, (resampled.map (fun p => (p.1, sh * p.2)))[i]? =
        (resampled[i]?).map (fun p => (p.1, sh * p.2))) ∧
      lump_sum_final resampled amount = some (sh * (resampled.getLast h).2) ∧
      lump_sum_return_pct resampled amount =
        some ((sh * (resampled.getLast h).2 - amount) / amount * 100) := by
  have hsh : shares_lump_sum resampled amount =
      some (amount / (resampled.head h).2) := by
    unfold shares_lump_sum initialPrice
    rw [List.head?_eq_head h]
    rfl
  have hpv : portfolio_value_lump_sum resampled amount =
      some (resampled.map
        (fun p => (p.1, amount / (resampled.head h).2 * p.2))) := by
    unfold portfolio_value_lump_sum
    rw [hsh]
    rfl
  have hfin : lump_sum_final resampled amount =
      some (amount / (resampled.head h).2 * (resampled.getLast h).2) := by
    unfold lump_sum_final
    rw [hpv]
    dsimp only
    rw [List.getLast?_map, List.getLast?_eq_getLast _ h]
    rfl
  have hret : lump_sum_return_pct resampled amount =
      some ((amount / (resampled.head h).2 * (resampled.getLast h).2 -
        amount) / amount * 100) := by
    unfold lump_sum_return_pct
    rw [hfin]
    rfl
  exact ⟨amount / (resampled.head h).2, rfl, hsh, hpv,
    fun i => List.getElem?_map _ resampled i, hfin, hret⟩

/-- Witness for C7: the spec scenario, a lump sum of 10000 at entry price
    50 with final resampled price 100 giving 200 shares, ending value
    20000 and a 100% return. -/
theorem c7_lump_sum_witness :
    shares_lump_sum resampledLS 10000 = some 200 ∧
    lump_sum_final resampledLS 10000 = some 20000 ∧
    lump_sum_return_pct resampledLS 10000 = some 100 := by
  have hne : resampledLS ≠ [] := by simp [resampledLS]
  obtain ⟨sh, hsh, h1, _, _, h4, h5⟩ := c7_lump_sum resampledLS 10000 hne
  have hh : (resampledLS.head hne).2 = 50 := rfl
  have hg : (resampledLS.getLast hne).2 = 100 := rfl
  rw [hh] at hsh
  norm_num at hsh
  subst hsh
  rw [hg] at h4 h5
  norm_num at h4 h5
  exact ⟨h1, h4, h5⟩

/-- C10: schedule generation terminates (with enough fuel) whenever every
    nominal cursor the loop reaches within the horizon has some trading day
    on or after it — in particular whenever the trading-day set contains a
    date on or after `end`; with an empty trading-day set and start ≤ end
    generation never returns for any fuel, and more generally the inner
    roll-forward loop never terminates from any cursor that has no trading
    day on or after it. -/
theorem c10_termination (tds : List Date) (freq : String) (start endD : Date)
    (hs : Valid start) (he : Valid endD)
    (hf : freq ∈ recognizedFrequencies) :
    ((∀ c, ReachableCursor tds freq start.d endD start c → Valid c →
        dle c endD → ∃ d ∈ tds, Valid d ∧ dle c d) →
      ∃ fuel rfuel l,
        generate_schedule start endD freq tds fuel rfuel = some (.ok l)) ∧
    ((∃ d ∈ tds, Valid d ∧ dle endD d) →
      ∃ fuel rfuel l,
        generate_schedule start endD freq tds fuel rfuel = some (.ok l)) ∧
    (dle start endD →
      ∀ fuel rfuel,
        generate_schedule start endD freq [] fuel rfuel = none) ∧
    (∀ c0, Valid c0 → (∀ d ∈ tds, Valid d → dlt d c0) →
      ∀ rfuel, rollForward tds rfuel c0 = none) := by
  have hsd : 1 ≤ start.d := (valid_bounds start hs).2.2.2.1
  have A : (∀ c, ReachableCursor tds freq start.d endD start c → Valid c →
      dle c endD → ∃ d ∈ tds, Valid d ∧ dle c d) →
      ∃ fuel rfuel l,
        generate_schedule start endD freq tds fuel rfuel = some (.ok l) := by
    intro H
    obtain ⟨l, hl⟩ := genFrom_total tds freq start.d endD start hsd he hf H
      ((mu endD + 1 - mu start).toNat + 1) start .init hs (Nat.lt_succ_self _)
    exact ⟨(mu endD + 1 - mu start).toNat + 1, rollFuelBound tds, l, hl⟩
  refine ⟨A, ?_, ?_, ?_⟩
  · rintro ⟨d, hdmem, hdv, hed⟩
    exact A (fun c _ hcv hc => ⟨d, hdmem, hdv, dle_trans c endD d hc hed⟩)
  · intro hse fuel rfuel
    exact genFrom_empty_none freq start.d endD fuel rfuel start hse
  · intro c0 hv hall rfuel
    exact rollForward_none_of_all_lt tds rfuel c0 hv hall

/-- Witness for C10: a trading day on/after `end` makes generation return a
    schedule for some fuel, and with no trading days it never returns. -/
theorem c10_termination_witness :
    (∃ fuel rfuel l,
      generate_schedule ⟨2020, 1, 1⟩ ⟨2020, 1, 3⟩ "daily"
        [⟨2020, 1, 2⟩, ⟨2020, 1, 5⟩] fuel rfuel = some (.ok l)) ∧
    (∀ fuel rfuel,
      generate_schedule ⟨2020, 1, 1⟩ ⟨2020, 1, 3⟩ "daily" [] fuel rfuel =
        none) ∧
    (∀ rfuel,
      rollForward [⟨2020, 1, 2⟩, ⟨2020, 1, 5⟩] rfuel ⟨2020, 1, 6⟩ =
        none) := by
  have h := c10_termination [⟨2020, 1, 2⟩, ⟨2020, 1, 5⟩] "daily"
    ⟨2020, 1, 1⟩ ⟨2020, 1, 3⟩ (by decide) (by decide) (by decide)
  exact ⟨h.2.1 ⟨⟨2020, 1, 5⟩, by decide, by decide, by decide⟩,
    h.2.2.1 (by decide),
    h.2.2.2 ⟨2020, 1, 6⟩ (by decide) (by decide)⟩

/-- C1, counterexample: with start 2020-01-01, end 2020-01-20 and weekly
    frequency, the sequence of nominal (pre-roll) cursor dates is NOT
    independent of the trading-day set: removing the single trading day
    2020-01-08 changes the third nominal cursor from 01-15 to 01-16,
    because the advance is applied to the rolled date 01-09, not to the
    pre-roll cursor 01-08. -/
theorem c1_counterexample :
    nominalCursors tdsJan20 "weekly" 1 ⟨2020, 1, 20⟩ 5 10 ⟨2020, 1, 1⟩ =
      some [⟨2020, 1, 1⟩, ⟨2020, 1, 8⟩, ⟨2020, 1, 15⟩] ∧
    nominalCursors tdsJan20NoJan8 "weekly" 1 ⟨2020, 1, 20⟩ 5 10
        ⟨2020, 1, 1⟩ =
      some [⟨2020, 1, 1⟩, ⟨2020, 1, 8⟩, ⟨2020, 1, 16⟩] ∧
    nominalCursors tdsJan20 "weekly" 1 ⟨2020, 1, 20⟩ 5 10 ⟨2020, 1, 1⟩ ≠
      nominalCursors tdsJan20NoJan8 "weekly" 1 ⟨2020, 1, 20⟩ 5 10
        ⟨2020, 1, 1⟩ := by decide

/-- C1, amended: the period-advance rule is applied to the rolled trading
    date (the cursor after roll-forward), not to the pre-roll cursor; for
    the month-based frequencies the advance depends only on the rolled
    date's year and month (together with start.day), so a roll that stays
    inside the nominal month does not shift later cursors, while
    daily/weekly advances and rolls that cross a month boundary do. -/
theorem c1_advance_from_rolled_date (tds : List Date) (freq : String)
    (sd : Int) (endD : Date) (rfuel fuel : Nat) (c r c2 : Date)
    (hc : dle c endD) (hroll : rollForward tds rfuel c = some r)
    (hadv : advance freq sd r = some c2) :
    (genFrom tds freq sd endD rfuel (fuel + 1) c =
      match genFrom tds freq sd endD rfuel fuel c2 with
      | none => none
      | some .invalidFrequency => some .invalidFrequency
      | some (.ok l) => some (.ok (r :: l))) ∧
    (∀ freq2, freq2 ∈ ["monthly", "quarterly", "semiannually", "annually"] →
      ∀ c3 : Date, c3.y = r.y → c3.m = r.m →
        advance freq2 sd c3 = advance freq2 sd r) := by
  constructor
  · rw [genFrom_succ, if_pos hc, hroll]
    dsimp only
    rw [hadv]
  · intro freq2 hf2 c3 hy hm
    simp only [List.mem_cons, List.not_mem_nil, or_false] at hf2
    rcases hf2 with rfl | rfl | rfl | rfl <;>
      simp [advance, clampDay, addMonthsFirst, hy, hm]

/-- Witness for C1 (amended) at the concrete weekly run used by the
    counterexample: from cursor 2020-01-08 (rolled to 01-09) the loop
    continues at `advance` of 01-09, i.e. 01-16; and the monthly advance of
    any date in January 2020 equals that of the rolled date 01-09. -/
theorem c1_advance_from_rolled_date_witness :
    (genFrom tdsJan20NoJan8 "weekly" 1 ⟨2020, 1, 20⟩ 5 (2 + 1)
        ⟨2020, 1, 8⟩ =
      match genFrom tdsJan20NoJan8 "weekly" 1 ⟨2020, 1, 20⟩ 5 2
          ⟨2020, 1, 16⟩ with
      | none => none
      | some .invalidFrequency => some .invalidFrequency
      | some (.ok l) => some (.ok (⟨2020, 1, 9⟩ :: l))) ∧
    advance "monthly" 1 ⟨2020, 1, 25⟩ = advance "monthly" 1 ⟨2020, 1, 9⟩ := by
  have h := c1_advance_from_rolled_date tdsJan20NoJan8 "weekly" 1
    ⟨2020, 1, 20⟩ 5 2 ⟨2020, 1, 8⟩ ⟨2020, 1, 9⟩ ⟨2020, 1, 16⟩
    (by decide) (by decide) (by decide)
  exact ⟨h.1, h.2 "monthly" (by simp) ⟨2020, 1, 25⟩ rfl rfl⟩

end App
